import Mathlib

/-!
Shallow embedding of the transactional page-management layer of the
coyove/bbolt storage engine (files `page.go` and `tx.go`), together with
theorems settling the specification claims about it.

Machine integers are modelled as `Nat` with explicit `% 2 ^ w` where Go's
fixed-width arithmetic can overflow.  Fatal assertions (`_assert`,
`panic`) are modelled as a distinguished outcome (`none` / `Outcome.fatal`)
that is never an ordinary returned error, following the spec's
"fatal assertions abort, they are never returned as a value" discipline.
-/

namespace BBolt

/-! ### Page type flags (`page.go`) -/

/-- Branch page flag constant (`branchPageFlag = 0x01`). -/
def branchPageFlag : Nat := 0x01

/-- Leaf page flag constant (`leafPageFlag = 0x02`). -/
def leafPageFlag : Nat := 0x02

/-- Meta page flag constant (`metaPageFlag = 0x04`). -/
def metaPageFlag : Nat := 0x04

/-- Freelist page flag constant (`freelistPageFlag = 0x10`). -/
def freelistPageFlag : Nat := 0x10

/-- One hexadecimal digit character, lowercase, as produced by Go's `%x`. -/
def hexDigitChar (n : Nat) : Char :=
  if n < 10 then Char.ofNat (48 + n) else Char.ofNat (87 + n)

/-- Hexadecimal digits of `n` (auxiliary, structural on a fuel argument
that bounds the number of digits; `fuel = n` is always enough). -/
def hexCharsAux : Nat → Nat → List Char
  | 0, _ => []
  | fuel + 1, n =>
    if n = 0 then [] else hexCharsAux fuel (n / 16) ++ [hexDigitChar (n % 16)]

/-- Hexadecimal digit list of `n`, most significant first; empty for `0`. -/
def hexChars (n : Nat) : List Char := hexCharsAux n n

/-- Go's `fmt.Sprintf` verb `%02x`: lowercase hex, zero padded to width 2. -/
def sprintf02x (n : Nat) : String :=
  String.mk (List.replicate (2 - (hexChars n).length) '0' ++ hexChars n)

/-- Model of `page.typ()` (`page.go`): classify a page by its `flags`
word, testing the four type bits in precedence order and falling back to
the diagnostic string `unknown<%02x>`. -/
def pageTyp (flags : Nat) : String :=
  if flags &&& branchPageFlag ≠ 0 then "branch"
  else if flags &&& leafPageFlag ≠ 0 then "leaf"
  else if flags &&& metaPageFlag ≠ 0 then "meta"
  else if flags &&& freelistPageFlag ≠ 0 then "freelist"
  else "unknown<" ++ sprintf02x flags ++ ">"

/-- Model of the `fastCheckBits` table (`page.go`): a `[0x11]bool` array
that is `true` exactly at the four one-flag values. -/
def fastCheckBits (i : Nat) : Bool :=
  i == branchPageFlag || i == leafPageFlag || i == metaPageFlag ||
    i == freelistPageFlag

/-- Model of `page.fastCheck(id)` (`page.go`): `true` iff the check
panics, i.e. the page's stored id disagrees with the expected one, or
`flags` is not exactly one recognized type bit. -/
def pageFastCheckPanics (expected selfId flags : Nat) : Bool :=
  selfId != expected || decide (freelistPageFlag < flags) || !fastCheckBits flags

/-! ### Leaf page element codec (`page.go`)

A `leafPageElement` is a single `uint64` word `data` packing
`flags` (1 bit, bit 63), `pos` (26 bits, bits 37..62), `ksize`
(13 bits, bits 24..36) and `vsize` (24 bits, bits 0..23). -/

/-- The packed word built by `leafPageElement.fill`:
`uint64(flags)<<63 | uint64(pos)<<37 | uint64(ksize)<<24 | uint64(vsize)`,
in `uint64` arithmetic (hence the final `% 2 ^ 64`). -/
def lpePack (flags pos ksize vsize : Nat) : Nat :=
  (flags <<< 63 ||| pos <<< 37 ||| ksize <<< 24 ||| vsize) % 2 ^ 64

/-- Model of `leafPageElement.fill` (`page.go`): `_assert(pos <= 0x3FFFFFF)`
then pack.  `none` models the fatal assertion; this is the only check the
source performs before packing. -/
def lpeFill (flags pos ksize vsize : Nat) : Option Nat :=
  if pos ≤ 0x3FFFFFF then some (lpePack flags pos ksize vsize) else none

/-- Model of `leafPageElement.flags()`: `uint32(n.data >> 63)`. -/
def lpeFlags (data : Nat) : Nat := (data >>> 63) % 2 ^ 32

/-- Model of `leafPageElement.pos()`: `uint32(n.data>>37) & 0x3FFFFFF`. -/
def lpePos (data : Nat) : Nat := ((data >>> 37) % 2 ^ 32) &&& 0x3FFFFFF

/-- Model of `leafPageElement.ksize()`: `uint32(n.data>>24) & 0x1FFF`. -/
def lpeKsize (data : Nat) : Nat := ((data >>> 24) % 2 ^ 32) &&& 0x1FFF

/-- Model of `leafPageElement.vsize()`: `uint32(n.data) & 0xFFFFFF`. -/
def lpeVsize (data : Nat) : Nat := (data % 2 ^ 32) &&& 0xFFFFFF

/-! ### PageID set utility (`page.go`: `pgids.merge` / `mergepgids`) -/

/-- Functional rendering of the merge loop of `mergepgids` (`page.go`).
The Go loop repeatedly appends to `merged` the longest prefix of `lead`
whose elements do not exceed `follow[0]` (found with `sort.Search`, i.e.
the least index at which `lead[i] > follow[0]`), breaks when `lead` is
exhausted, swapping the roles otherwise, and finally appends the rest of
`follow`.  The fuel argument bounds the number of swaps; the caller
passes `lead.length + follow.length`, which always suffices.  The
`follow = []` branch is unreachable from `mergepgids` (it guards both
inputs against emptiness first). -/
def pgidMergeLoop : Nat → List Nat → List Nat → List Nat
  | 0, _, follow => follow
  | fuel + 1, lead, follow =>
    match lead, follow with
    | [], _ => follow
    | lead, [] => lead
    | lead, x :: _ =>
      let n := lead.findIdx fun v => decide (x < v)
      if lead.length ≤ n then lead ++ follow
      else lead.take n ++ pgidMergeLoop fuel follow (lead.drop n)

/-- Model of `mergepgids(dst, a, b)` (`page.go`) where `dst` has length
exactly `len(a) + len(b)` (as allocated by `pgids.merge`): the value left
in `dst`.  Either empty input is answered by copying the other; otherwise
the slice with the smaller first element leads. -/
def mergepgids : List Nat → List Nat → List Nat
  | [], b => b
  | a, [] => a
  | a1 :: ta, b1 :: tb =>
    if b1 < a1 then
      pgidMergeLoop ((a1 :: ta).length + (b1 :: tb).length) (b1 :: tb) (a1 :: ta)
    else
      pgidMergeLoop ((a1 :: ta).length + (b1 :: tb).length) (a1 :: ta) (b1 :: tb)

/-- Model of `pgids.merge(b)` (`page.go`): return the opposite slice if
one is empty, otherwise merge into a freshly allocated slice of length
`len(a) + len(b)`. -/
def pgidsMerge (a b : List Nat) : List Nat :=
  if a.length = 0 then b
  else if b.length = 0 then a
  else mergepgids a b

/-! ### Errors and transaction state (`tx.go`) -/

/-- Returned (recoverable) errors reaching the claims.  `ErrTxClosed`,
`ErrTxNotWritable` and `ErrFreePagesNotLoaded` are the sentinel errors of
the database package; `ext code` stands for an arbitrary error value
propagated from a collaborator (`spill`, `freelist.write`, `grow`,
`writeAt`, `fdatasync`). -/
inductive GoErr where
  | txClosed
  | txNotWritable
  | freePagesNotLoaded
  | ext (code : Nat)
deriving DecidableEq, Repr

/-- The meta record fields the claims touch (`meta`): transaction id,
root bucket descriptor, page high-water mark and freelist-region parity
selector, all 64-bit words in Go. -/
structure MetaRec where
  txid : Nat
  root : Nat
  pgid : Nat
  flid : Nat
deriving DecidableEq, Repr

/-- Model of `db.meta().copy(tx.meta)`: a by-value copy of the record. -/
def metaCopy (m : MetaRec) : MetaRec := m

/-- The transaction state produced by `Tx.init` that the claims mention:
writability, the private meta snapshot, the root bucket descriptor copied
from the snapshot, and the dirty-page cache (`none` models the nil map of
a read-only transaction, `some []` the freshly allocated empty map). -/
structure TxSnap where
  writable : Bool
  meta : MetaRec
  root : Nat
  pages : Option (List (Nat × Nat))
deriving DecidableEq, Repr

/-- Model of `Tx.init(db)` (`tx.go`): copy the meta record by value, copy
the root bucket descriptor out of the snapshot, and, only if writable,
allocate an empty dirty-page cache and increment `txid` and `flid`
(`uint64` arithmetic, hence `% 2 ^ 64`). -/
def txInit (writable : Bool) (dbMeta : MetaRec) : TxSnap :=
  let m := metaCopy dbMeta
  if writable then
    { writable := writable
      meta := { m with txid := (m.txid + 1) % 2 ^ 64, flid := (m.flid + 1) % 2 ^ 64 }
      root := m.root
      pages := some [] }
  else
    { writable := writable, meta := m, root := m.root, pages := none }

/-! ### Freelist region writer (`tx.go`: `Tx.commitFreelist`) -/

/-- The freelist page produced by `commitFreelist`: its page id and
overflow count. -/
structure FreelistPage where
  id : Nat
  overflow : Nat
deriving DecidableEq, Repr

/-- Number of pages of the freelist serialization (`tx.go`): one page
when `size < pageSize`, else `size/pageSize + 1`. -/
def freelistPageCount (size pageSize : Nat) : Nat :=
  if size < pageSize then 1 else size / pageSize + 1

/-- Model of `Tx.commitFreelist` (`tx.go`), parameterized by the
collaborator results: `size` is `tx.db.freelist.size()`, `writeErr` the
result of `tx.db.freelist.write(p)`.  `none` models the fatal
`_assert(size < freelistRegionSize - pageSize)`; otherwise the function
either propagates the write error (after a rollback) or registers and
returns the page with id `2 + (flid%2)*regionSize/pageSize` and overflow
`pages - 1`.  The sizes are Go `int`s, so the assertion compares over
`Int`. -/
def commitFreelistResult (size pageSize regionSize flid : Nat)
    (writeErr : Option Nat) : Option (Except GoErr FreelistPage) :=
  if (size : Int) < (regionSize : Int) - (pageSize : Int) then
    match writeErr with
    | some e => some (Except.error (GoErr.ext e))
    | none =>
        some (Except.ok
          { id := 2 + flid % 2 * regionSize / pageSize
            overflow := freelistPageCount size pageSize - 1 })
  else none

/-! ### Commit sequence (`tx.go`: `Tx.Commit`) -/

/-- The externally observable steps of `Tx.Commit`, in the order the code
performs them.  `closeTx` is the `tx.close()` that releases the writer
lock; `runCallbacks` runs the registered commit handlers. -/
inductive CommitStep where
  | rebalance
  | spill
  | setRoot
  | persistFreelist
  | grow
  | writePages
  | strictCheck
  | writeMeta
  | rollback
  | closeTx
  | runCallbacks
deriving DecidableEq, Repr

/-- The outcome of `Tx.Commit`: normal return, a returned error, or a
fatal abort (`_assert` failure or strict-mode `panic`). -/
inductive Outcome where
  | ok
  | err (e : GoErr)
  | fatal (msg : String)
deriving DecidableEq, Repr

/-- Results of the external collaborators consumed by `Tx.Commit`,
plus the configuration bits it reads.  `pgidGrew` models
`tx.meta.pgid > opgid` after spill; `checkErrs` the strings drained from
`tx.Check()` in strict mode. -/
structure CommitEnv where
  spillErr : Option Nat
  freelistSize : Nat
  pageSize : Nat
  regionSize : Nat
  flid : Nat
  freelistWriteErr : Option Nat
  pgidGrew : Bool
  growErr : Option Nat
  writeErr : Option Nat
  strictMode : Bool
  checkErrs : List String
  metaErr : Option Nat
deriving DecidableEq, Repr

instance {ε α : Type} [DecidableEq ε] [DecidableEq α] :
    DecidableEq (Except ε α) := fun x y =>
  match x, y with
  | Except.error a, Except.error b =>
      decidable_of_iff (a = b) ⟨fun h => h ▸ rfl, fun h => by injection h⟩
  | Except.ok a, Except.ok b =>
      decidable_of_iff (a = b) ⟨fun h => h ▸ rfl, fun h => by injection h⟩
  | Except.error _, Except.ok _ => isFalse fun h => by injection h
  | Except.ok _, Except.error _ => isFalse fun h => by injection h

/-- Tail of `Tx.Commit` from `tx.writeMeta()` on: meta-write failure
rolls back and returns the error; success closes the transaction and
then runs the commit handlers. -/
def txCommitMeta (t : List CommitStep) (env : CommitEnv) :
    List CommitStep × Outcome :=
  match env.metaErr with
  | some e => (t ++ [CommitStep.writeMeta, CommitStep.rollback], Outcome.err (GoErr.ext e))
  | none =>
      (t ++ [CommitStep.writeMeta, CommitStep.closeTx, CommitStep.runCallbacks],
        Outcome.ok)

/-- Tail of `Tx.Commit` from `tx.write()` on: dirty-page write failure
rolls back and returns the error; in strict mode any reported
inconsistency panics before the meta write. -/
def txCommitTail (t : List CommitStep) (env : CommitEnv) :
    List CommitStep × Outcome :=
  match env.writeErr with
  | some e => (t ++ [CommitStep.writePages, CommitStep.rollback], Outcome.err (GoErr.ext e))
  | none =>
    if env.strictMode then
      if env.checkErrs.isEmpty then
        txCommitMeta (t ++ [CommitStep.writePages, CommitStep.strictCheck]) env
      else
        (t ++ [CommitStep.writePages, CommitStep.strictCheck],
          Outcome.fatal ("check fail: " ++ String.intercalate "\n" env.checkErrs))
    else txCommitMeta (t ++ [CommitStep.writePages]) env

/-- Middle of `Tx.Commit`: grow the file if the high-water mark moved up,
rolling back on failure, then continue with the write path. -/
def txCommitGrow (t : List CommitStep) (env : CommitEnv) :
    List CommitStep × Outcome :=
  if env.pgidGrew then
    match env.growErr with
    | some e => (t ++ [CommitStep.grow, CommitStep.rollback], Outcome.err (GoErr.ext e))
    | none => txCommitTail (t ++ [CommitStep.grow]) env
  else txCommitTail t env

/-- Model of `Tx.Commit` (`tx.go`): the guard sequence
(`_assert(!managed)`, closed check, writability check) followed by the
ordered write path, returning both the trace of performed steps and the
outcome. -/
def txCommit (managed dbOpen writable : Bool) (env : CommitEnv) :
    List CommitStep × Outcome :=
  if managed then ([], Outcome.fatal "managed tx commit not allowed")
  else if !dbOpen then ([], Outcome.err GoErr.txClosed)
  else if !writable then ([], Outcome.err GoErr.txNotWritable)
  else
    match env.spillErr with
    | some e =>
        ([CommitStep.rebalance, CommitStep.spill, CommitStep.rollback],
          Outcome.err (GoErr.ext e))
    | none =>
      match commitFreelistResult env.freelistSize env.pageSize env.regionSize
          env.flid env.freelistWriteErr with
      | none =>
          ([CommitStep.rebalance, CommitStep.spill, CommitStep.setRoot,
              CommitStep.persistFreelist],
            Outcome.fatal "fatal: freelist too large")
      | some (Except.error e) =>
          ([CommitStep.rebalance, CommitStep.spill, CommitStep.setRoot,
              CommitStep.persistFreelist, CommitStep.rollback],
            Outcome.err e)
      | some (Except.ok _) =>
          txCommitGrow
            [CommitStep.rebalance, CommitStep.spill, CommitStep.setRoot,
              CommitStep.persistFreelist] env

/-! ### Page introspection (`tx.go`: `Tx.Page`) -/

/-- Model of the exported `PageInfo` record (`page.go`).  The Go field
`Type` is named `ptype` here because `Type` is not a usable identifier. -/
structure PageInfo where
  ID : Nat
  ptype : String
  Count : Nat
  OverflowCount : Nat
deriving DecidableEq, Repr

/-- Model of `Tx.Page(id)` (`tx.go`), parameterized by the database view:
`metaPgid` is the snapshot's high-water mark, `freelistLoaded` whether
`tx.db.freelist` is non-nil, `freed` the freelist membership test, and
`count`/`overflow`/`flags` the header fields of the mmap page at each id. -/
def txPage (dbOpen : Bool) (metaPgid : Nat) (freelistLoaded : Bool)
    (freed : Nat → Bool) (count overflow flags : Nat → Nat) (id : Nat) :
    Except GoErr (Option PageInfo) :=
  if !dbOpen then Except.error GoErr.txClosed
  else if metaPgid ≤ id then Except.ok none
  else if !freelistLoaded then Except.error GoErr.freePagesNotLoaded
  else
    Except.ok (some
      { ID := id
        Count := count id
        OverflowCount := overflow id
        ptype := if freed id then "free" else pageTyp (flags id) })

/-! ### Dirty-page write plan (`tx.go`: `Tx.write`) -/

/-- Model of `sort.Sort(pages)` in `Tx.write`: the dirty pages (pairs of
page id and overflow count) in ascending id order, per `pages.Less`
(`page.go`).  Page ids are map keys, hence distinct, so the sorted
sequence is unique and stability is irrelevant. -/
def sortPages (ps : List (Nat × Nat)) : List (Nat × Nat) :=
  ps.mergeSort fun p q => decide (p.1 ≤ q.1)

/-- The chunk loop of `Tx.write` for one page: starting at file offset
`offset` with `rem` bytes left, each iteration writes
`sz = min rem (maxAlloc - 1)` bytes and advances.  Returns the
`(offset, size)` pairs in write order.  The fuel argument makes the
recursion structural; `fuel = rem` suffices whenever `maxAlloc ≥ 2`. -/
def chunksGo : Nat → Nat → Nat → Nat → List (Nat × Nat)
  | 0, _, _, _ => []
  | fuel + 1, maxAlloc, offset, rem =>
    (offset, min rem (maxAlloc - 1)) ::
      (if rem - min rem (maxAlloc - 1) = 0 then []
       else chunksGo fuel maxAlloc (offset + min rem (maxAlloc - 1))
              (rem - min rem (maxAlloc - 1)))

/-- The chunks `Tx.write` emits for one dirty page: the payload spans
`(overflow + 1) * pageSize` bytes starting at offset `id * pageSize`. -/
def pageChunks (pageSize maxAlloc id overflow : Nat) : List (Nat × Nat) :=
  chunksGo ((overflow + 1) * pageSize) maxAlloc (id * pageSize)
    ((overflow + 1) * pageSize)

/-- The full write plan of `Tx.write` (`tx.go`): sort the dirty pages by
id, then emit each page's chunks in order. -/
def txWritePlan (pageSize maxAlloc : Nat) (ps : List (Nat × Nat)) :
    List (Nat × Nat) :=
  (sortPages ps).flatMap fun p => pageChunks pageSize maxAlloc p.1 p.2

/-! ## Theorems -/

/-- C10: `typ()` is total over every `uint16` flags value and never
fails: it classifies by precedence, returning "branch" whenever the
branch bit is set (even if other type bits are also set), else "leaf" if
the leaf bit is set, else "meta", else "freelist", else the diagnostic
string `unknown<%02x>`; unlike `fastCheck`, `typ()` does not reject a
flags word violating the one-flag-only invariant (witness `0x03`). -/
theorem typ_total_precedence :
    (∀ flags : Nat, flags < 2 ^ 16 →
      (flags &&& branchPageFlag ≠ 0 → pageTyp flags = "branch") ∧
      (flags &&& branchPageFlag = 0 → flags &&& leafPageFlag ≠ 0 →
        pageTyp flags = "leaf") ∧
      (flags &&& branchPageFlag = 0 → flags &&& leafPageFlag = 0 →
        flags &&& metaPageFlag ≠ 0 → pageTyp flags = "meta") ∧
      (flags &&& branchPageFlag = 0 → flags &&& leafPageFlag = 0 →
        flags &&& metaPageFlag = 0 → flags &&& freelistPageFlag ≠ 0 →
        pageTyp flags = "freelist") ∧
      (flags &&& branchPageFlag = 0 → flags &&& leafPageFlag = 0 →
        flags &&& metaPageFlag = 0 → flags &&& freelistPageFlag = 0 →
        pageTyp flags = "unknown<" ++ sprintf02x flags ++ ">")) ∧
    pageTyp (branchPageFlag ||| leafPageFlag) = "branch" ∧
    pageFastCheckPanics 7 7 (branchPageFlag ||| leafPageFlag) = true := by
  refine ⟨fun flags _ => ⟨?_, ?_, ?_, ?_, ?_⟩, by decide, by decide⟩ <;>
    · intros; simp_all [pageTyp]

/-- Witness for C10's theorem at flags `0x12` (leaf and freelist bits):
the branch bit is clear, the leaf bit set, so `typ` answers "leaf". -/
theorem typ_total_precedence_witness : pageTyp 18 = "leaf" :=
  (typ_total_precedence.1 18 (by decide)).2.1 (by decide) (by decide)

/-- C1 counterexample: the original claim says a `fill` call with
`ksize > 8191` is rejected by a fatal assertion before packing, but the
source asserts only on `pos`: at `fill(0, 0, 8192, 0)` no assertion
fires — the element is packed (into `2^37`, the oversized length bleeding
into the `pos` field) and the `ksize` accessor reads back `0`. -/
theorem fill_oversized_ksize_packed :
    lpeFill 0 0 8192 0 = some (2 ^ 37) ∧ lpeKsize (2 ^ 37) = 0 ∧
      lpePos (2 ^ 37) = 1 := by decide

/-- C1 amended: `fill` rejects with a fatal assertion exactly the calls
with `pos > 2^26 - 1`; `ksize` and `vsize` are not validated — any call
with `pos` in range packs the element, oversized key/value lengths
included (their excess bits spill into the neighbouring fields, as the
counterexample shows). -/
theorem fill_asserts_only_pos (flags pos ksize vsize : Nat) :
    (lpeFill flags pos ksize vsize = none ↔ 0x3FFFFFF < pos) ∧
    (pos ≤ 0x3FFFFFF →
      lpeFill flags pos ksize vsize = some (lpePack flags pos ksize vsize)) := by
  constructor
  · unfold lpeFill; split <;> simp <;> omega
  · intro h; simp [lpeFill, h]

/-- Witness for C1's amended theorem: at in-range `pos` the element is
packed, whatever the other fields are. -/
theorem fill_asserts_only_pos_witness :
    lpeFill 1 5 3 4 = some (lpePack 1 5 3 4) :=
  (fill_asserts_only_pos 1 5 3 4).2 (by decide)

/-- C5: `Commit()` returns `ErrTxClosed` on a closed transaction
(writable or not, so "closed" takes precedence over "not writable"),
`ErrTxNotWritable` on an open read-only transaction — in both cases with
an empty step trace, i.e. no write-path work — and fatally asserts on a
managed transaction whatever the rest of the state is. -/
theorem commit_guards (w : Bool) (env : CommitEnv) :
    txCommit false false w env = ([], Outcome.err GoErr.txClosed) ∧
    txCommit false true false env = ([], Outcome.err GoErr.txNotWritable) ∧
    ∀ d w2, txCommit true d w2 env =
      ([], Outcome.fatal "managed tx commit not allowed") := by
  refine ⟨?_, ?_, fun d w2 => ?_⟩ <;> simp [txCommit]

/-- C3 counterexample: the original claim says the freelist-persist
assertion fires exactly when the serialized size exceeds
`regionSize - pageSize`; but at `size = regionSize - pageSize`
(e.g. 4096 = 8192 - 4096), which does not exceed the budget, the strict
`<` in `_assert(size < freelistRegionSize - pageSize)` still fails
fatally. -/
theorem freelist_assert_at_exact_budget :
    commitFreelistResult 4096 4096 8192 0 none = none := by decide

/-- C3 amended: the freelist-persist step aborts fatally (an assertion,
never a returned error) exactly when the serialized freelist size is at
least `regionSize - pageSize`; when `size < regionSize - pageSize` the
assertion passes and the freelist page is produced at page id
`2 + (flid % 2) * regionSize / pageSize` with `pages - 1` overflow (a
failing `freelist.write` is instead propagated as an ordinary error). -/
theorem commitFreelist_spec (size pageSize regionSize flid : Nat)
    (wErr : Option Nat) :
    (commitFreelistResult size pageSize regionSize flid wErr = none ↔
      (regionSize : Int) - (pageSize : Int) ≤ (size : Int)) ∧
    ((size : Int) < (regionSize : Int) - (pageSize : Int) →
      commitFreelistResult size pageSize regionSize flid none =
        some (Except.ok
          { id := 2 + flid % 2 * regionSize / pageSize
            overflow := freelistPageCount size pageSize - 1 }) ∧
      ∀ e, commitFreelistResult size pageSize regionSize flid (some e) =
        some (Except.error (GoErr.ext e))) := by
  constructor
  · unfold commitFreelistResult
    split
    · cases wErr <;> simp <;> omega
    · simp; omega
  · intro h
    exact ⟨by simp [commitFreelistResult, h], fun e => by simp [commitFreelistResult, h]⟩

/-- Witness for C3's amended theorem: a 100-byte freelist against a
4096-byte page size and 8192-byte region passes the assertion and yields
the single page `4` of the odd region. -/
theorem commitFreelist_spec_witness :
    commitFreelistResult 100 4096 8192 3 none =
      some (Except.ok { id := 4, overflow := 0 }) :=
  (((commitFreelist_spec 100 4096 8192 3 none).2 (by decide)).1).trans (by decide)

/-- C7: `Page(id)` checks, in order: the closed-transaction guard (error
`ErrTxClosed`), the high-water mark (`(nil, nil)` for any
`id ≥ tx.meta.pgid`), the preloaded-freelist guard
(`ErrFreePagesNotLoaded`), and otherwise returns the page's id, element
count, overflow count, and the classification "free" for a freed page,
else the structural type string. -/
theorem page_lookup_spec (dbOpen : Bool) (metaPgid : Nat) (loaded : Bool)
    (freed : Nat → Bool) (count overflow flags : Nat → Nat) (id : Nat) :
    (dbOpen = false →
      txPage dbOpen metaPgid loaded freed count overflow flags id =
        Except.error GoErr.txClosed) ∧
    (dbOpen = true → metaPgid ≤ id →
      txPage dbOpen metaPgid loaded freed count overflow flags id =
        Except.ok none) ∧
    (dbOpen = true → id < metaPgid → loaded = false →
      txPage dbOpen metaPgid loaded freed count overflow flags id =
        Except.error GoErr.freePagesNotLoaded) ∧
    (dbOpen = true → id < metaPgid → loaded = true →
      txPage dbOpen metaPgid loaded freed count overflow flags id =
        Except.ok (some
          { ID := id
            Count := count id
            OverflowCount := overflow id
            ptype := if freed id then "free" else pageTyp (flags id) })) := by
  refine ⟨?_, ?_, ?_, ?_⟩ <;> intros <;> simp_all [txPage]

/-- Witness for C7's theorem: an open transaction with high-water mark 5
asked about page 7 answers "no result, no error". -/
theorem page_lookup_spec_witness :
    txPage true 5 true (fun _ => false) (fun _ => 0) (fun _ => 0)
      (fun _ => 2) 7 = Except.ok none :=
  (page_lookup_spec true 5 true (fun _ => false) (fun _ => 0) (fun _ => 0)
    (fun _ => 2) 7).2.1 rfl (by decide)

/-- C8 counterexample: `txid` is a `uint64`, so at the representable
maximum the "increment" of a writable transaction wraps to `0` instead of
producing a strictly greater transaction id, falsifying the claim's
"strictly greater than the prior committed txid" at that input. -/
theorem txid_wrap_counterexample :
    (txInit true { txid := 2 ^ 64 - 1, root := 0, pgid := 0, flid := 0 }).meta.txid
        = 0 ∧
    ¬ ((2 ^ 64 - 1 : Nat) <
        (txInit true
          { txid := 2 ^ 64 - 1, root := 0, pgid := 0, flid := 0 }).meta.txid) := by
  decide

/-- C8 amended: `Tx.init` copies the meta record by value; iff the
transaction is writable it also allocates an empty dirty-page cache and
increments the snapshot's `txid` and `flid` by one in `uint64` arithmetic
(leaving `root` and `pgid` untouched), so the writable `txid` is strictly
greater than the prior committed one whenever that is below `2^64 - 1`,
and `flid` parity always alternates; a read-only transaction's `txid`,
`flid` and page cache are left untouched. -/
theorem txInit_spec (m : MetaRec) :
    txInit false m =
      { writable := false, meta := m, root := m.root, pages := none } ∧
    txInit true m =
      { writable := true
        meta := { txid := (m.txid + 1) % 2 ^ 64, root := m.root, pgid := m.pgid,
                  flid := (m.flid + 1) % 2 ^ 64 }
        root := m.root
        pages := some [] } ∧
    (m.txid < 2 ^ 64 - 1 → m.txid < (txInit true m).meta.txid) ∧
    (txInit true m).meta.flid % 2 ≠ m.flid % 2 := by
  refine ⟨rfl, rfl, fun h => ?_, ?_⟩
  · simp only [txInit, metaCopy, if_true]
    omega
  · simp only [txInit, metaCopy, if_true]
    have h2 : (m.flid + 1) % 2 ^ 64 % 2 = (m.flid + 1) % 2 :=
      Nat.mod_mod_of_dvd _ (by norm_num)
    omega

/-- Witness for C8's amended theorem: from prior `txid = 7` a writable
transaction gets the strictly greater `txid = 8`. -/
theorem txInit_spec_witness :
    (7 : Nat) <
      (txInit true { txid := 7, root := 9, pgid := 4, flid := 2 }).meta.txid :=
  (txInit_spec { txid := 7, root := 9, pgid := 4, flid := 2 }).2.2.1 (by decide)

/-- With every field inside its bit-width bound the packed word is the
plain weighted sum of the fields: the shifted fields occupy disjoint bit
ranges, so the `or`s act as additions and the `uint64` reduction is
vacuous. -/
theorem lpePack_eq_sum (flags pos ksize vsize : Nat) (hf : flags ≤ 1)
    (hp : pos ≤ 0x3FFFFFF) (hk : ksize ≤ 0x1FFF) (hv : vsize ≤ 0xFFFFFF) :
    lpePack flags pos ksize vsize =
      flags * 2 ^ 63 + pos * 2 ^ 37 + ksize * 2 ^ 24 + vsize := by
  have hb1 : 2 ^ 37 * pos < 2 ^ 63 := by
    calc 2 ^ 37 * pos ≤ 2 ^ 37 * 0x3FFFFFF := Nat.mul_le_mul_left _ hp
      _ < 2 ^ 63 := by norm_num
  have hb2 : 2 ^ 24 * ksize < 2 ^ 37 := by
    calc 2 ^ 24 * ksize ≤ 2 ^ 24 * 0x1FFF := Nat.mul_le_mul_left _ hk
      _ < 2 ^ 37 := by norm_num
  have hb3 : vsize < 2 ^ 24 := by omega
  have e1 : flags <<< 63 ||| pos <<< 37 = 2 ^ 37 * (2 ^ 26 * flags + pos) := by
    rw [Nat.shiftLeft_eq, Nat.shiftLeft_eq, Nat.mul_comm flags, Nat.mul_comm pos,
      ← Nat.mul_add_lt_is_or hb1 flags]
    ring
  have e2 : 2 ^ 37 * (2 ^ 26 * flags + pos) ||| ksize <<< 24 =
      2 ^ 24 * (2 ^ 13 * (2 ^ 26 * flags + pos) + ksize) := by
    rw [Nat.shiftLeft_eq, Nat.mul_comm ksize, ← Nat.mul_add_lt_is_or hb2]
    ring
  have e3 : 2 ^ 24 * (2 ^ 13 * (2 ^ 26 * flags + pos) + ksize) ||| vsize =
      2 ^ 24 * (2 ^ 13 * (2 ^ 26 * flags + pos) + ksize) + vsize :=
    (Nat.mul_add_lt_is_or hb3 _).symm
  unfold lpePack
  rw [e1, e2, e3]
  have : 2 ^ 24 * (2 ^ 13 * (2 ^ 26 * flags + pos) + ksize) + vsize =
      flags * 2 ^ 63 + pos * 2 ^ 37 + ksize * 2 ^ 24 + vsize := by ring
  rw [this]
  apply Nat.mod_eq_of_lt
  have : flags * 2 ^ 63 ≤ 2 ^ 63 := by omega
  omega

/-- C2: for every `flags ∈ {0, 1}`, `pos ≤ 2^26 - 1`, `ksize ≤ 2^13 - 1`
and `vsize ≤ 2^24 - 1`, `fill(flags, pos, ksize, vsize)` passes the
assertion and packs a word from which the accessors `flags()`, `pos()`,
`ksize()` and `vsize()` read back exactly the four inputs. -/
theorem lpe_roundtrip (flags pos ksize vsize : Nat) (hf : flags ≤ 1)
    (hp : pos ≤ 0x3FFFFFF) (hk : ksize ≤ 0x1FFF) (hv : vsize ≤ 0xFFFFFF) :
    lpeFill flags pos ksize vsize = some (lpePack flags pos ksize vsize) ∧
    lpeFlags (lpePack flags pos ksize vsize) = flags ∧
    lpePos (lpePack flags pos ksize vsize) = pos ∧
    lpeKsize (lpePack flags pos ksize vsize) = ksize ∧
    lpeVsize (lpePack flags pos ksize vsize) = vsize := by
  have hsum := lpePack_eq_sum flags pos ksize vsize hf hp hk hv
  have m26 : (0x3FFFFFF : Nat) = 2 ^ 26 - 1 := by norm_num
  have m13 : (0x1FFF : Nat) = 2 ^ 13 - 1 := by norm_num
  have m24 : (0xFFFFFF : Nat) = 2 ^ 24 - 1 := by norm_num
  refine ⟨by simp [lpeFill, hp], ?_, ?_, ?_, ?_⟩
  · unfold lpeFlags
    rw [hsum, Nat.shiftRight_eq_div_pow]
    omega
  · unfold lpePos
    rw [hsum, Nat.shiftRight_eq_div_pow, m26, Nat.and_pow_two_sub_one_eq_mod]
    omega
  · unfold lpeKsize
    rw [hsum, Nat.shiftRight_eq_div_pow, m13, Nat.and_pow_two_sub_one_eq_mod]
    omega
  · unfold lpeVsize
    rw [hsum, m24, Nat.and_pow_two_sub_one_eq_mod]
    omega

/-- Witness for C2's theorem at `(1, 1000, 29, 300)`: the assertion
passes and all four accessors recover the inputs. -/
theorem lpe_roundtrip_witness :
    lpeFill 1 1000 29 300 = some (lpePack 1 1000 29 300) ∧
    lpeFlags (lpePack 1 1000 29 300) = 1 ∧
    lpePos (lpePack 1 1000 29 300) = 1000 ∧
    lpeKsize (lpePack 1 1000 29 300) = 29 ∧
    lpeVsize (lpePack 1 1000 29 300) = 300 :=
  lpe_roundtrip 1 1000 29 300 (by decide) (by decide) (by decide) (by decide)

/-- Invariants of the chunk loop of `Tx.write`: starting at `offset` with
`rem ≥ 1` bytes left and fuel at least `rem`, the emitted chunks begin at
`offset`, their sizes sum to `rem`, each size is between `1` and
`maxAlloc - 1`, and their offsets are strictly increasing with `offset`
as a lower bound. -/
theorem chunksGo_spec (maxAlloc : Nat) (hma : 2 ≤ maxAlloc) :
    ∀ fuel offset rem, 1 ≤ rem → rem ≤ fuel →
      ((chunksGo fuel maxAlloc offset rem).map Prod.fst).head? = some offset ∧
      ((chunksGo fuel maxAlloc offset rem).map Prod.snd).sum = rem ∧
      (∀ c ∈ chunksGo fuel maxAlloc offset rem, 1 ≤ c.2 ∧ c.2 ≤ maxAlloc - 1) ∧
      List.Pairwise (· < ·) ((chunksGo fuel maxAlloc offset rem).map Prod.fst) ∧
      ∀ o ∈ (chunksGo fuel maxAlloc offset rem).map Prod.fst, offset ≤ o := by
  intro fuel
  induction fuel with
  | zero => intro offset rem h1 h2; omega
  | succ fuel ih =>
    intro offset rem h1 h2
    by_cases h : rem - min rem (maxAlloc - 1) = 0
    · have hsz : min rem (maxAlloc - 1) = rem := by omega
      have hstep : chunksGo (fuel + 1) maxAlloc offset rem = [(offset, rem)] := by
        simp [chunksGo, h, hsz]
      rw [hstep]
      refine ⟨rfl, by simp, ?_, by simp, by simp⟩
      intro c hc
      simp only [List.mem_singleton] at hc
      subst hc
      refine ⟨h1, ?_⟩
      show rem ≤ maxAlloc - 1
      omega
    · obtain ⟨hh, hsum, hbnd, hpw, hlb⟩ :=
        ih (offset + min rem (maxAlloc - 1)) (rem - min rem (maxAlloc - 1))
          (by omega) (by omega)
      simp only [chunksGo, if_neg h, List.map_cons]
      refine ⟨rfl, ?_, ?_, ?_, ?_⟩
      · simp only [List.sum_cons, hsum]
        omega
      · intro c hc
        rcases List.mem_cons.mp hc with hc | hc
        · subst hc
          constructor
          · show 1 ≤ min rem (maxAlloc - 1)
            omega
          · show min rem (maxAlloc - 1) ≤ maxAlloc - 1
            omega
        · exact hbnd c hc
      · refine List.pairwise_cons.mpr ⟨?_, hpw⟩
        intro o ho
        have := hlb o ho
        omega
      · intro o ho
        rcases List.mem_cons.mp ho with ho | ho
        · omega
        · have := hlb o ho
          omega

/-- C9: the dirty-page write step writes the pages of the cache in
ascending page-id order (the sorted sequence is a permutation of the
cache with strictly increasing ids), and each page's payload of
`(overflow + 1) * pageSize` bytes is emitted as chunks of size at most
`maxAllocSize - 1`, at strictly increasing file offsets starting at
`id * pageSize`, whose sizes sum to the whole payload. -/
theorem write_plan_spec (pageSize maxAlloc id overflow : Nat)
    (ps : List (Nat × Nat)) (hps : 1 ≤ pageSize) (hma : 2 ≤ maxAlloc)
    (hnd : (ps.map Prod.fst).Nodup) :
    (txWritePlan pageSize maxAlloc ps =
        (sortPages ps).flatMap (fun p => pageChunks pageSize maxAlloc p.1 p.2) ∧
      (sortPages ps).Perm ps ∧
      List.Pairwise (· < ·) ((sortPages ps).map Prod.fst)) ∧
    ((pageChunks pageSize maxAlloc id overflow).map Prod.fst).head? =
      some (id * pageSize) ∧
    ((pageChunks pageSize maxAlloc id overflow).map Prod.snd).sum =
      (overflow + 1) * pageSize ∧
    (∀ c ∈ pageChunks pageSize maxAlloc id overflow,
      1 ≤ c.2 ∧ c.2 ≤ maxAlloc - 1) ∧
    List.Pairwise (· < ·)
      ((pageChunks pageSize maxAlloc id overflow).map Prod.fst) := by
  have hperm : (sortPages ps).Perm ps :=
    List.mergeSort_perm ps fun p q => decide (p.1 ≤ q.1)
  have hsorted :
      (sortPages ps).Pairwise fun p q : Nat × Nat => decide (p.1 ≤ q.1) :=
    List.sorted_mergeSort
      (by intro a b c hab hbc; simp only [decide_eq_true_eq] at *; omega)
      (by intro a b; simp only [Bool.or_eq_true, decide_eq_true_eq]; omega) ps
  have hle : List.Pairwise (· ≤ ·) ((sortPages ps).map Prod.fst) :=
    hsorted.map Prod.fst (by intro a b hab; exact of_decide_eq_true hab)
  have hnd' : ((sortPages ps).map Prod.fst).Nodup :=
    ((hperm.map Prod.fst).nodup_iff).mpr hnd
  have hlt : List.Pairwise (· < ·) ((sortPages ps).map Prod.fst) :=
    List.Pairwise.imp₂ (fun a b h1 h2 => Nat.lt_of_le_of_ne h1 h2) hle hnd'
  have hrem : 1 ≤ (overflow + 1) * pageSize := Nat.mul_pos (by omega) hps
  obtain ⟨hh, hsum, hbnd, hpw, _⟩ :=
    chunksGo_spec maxAlloc hma ((overflow + 1) * pageSize) (id * pageSize)
      ((overflow + 1) * pageSize) hrem (Nat.le_refl _)
  exact ⟨⟨rfl, hperm, hlt⟩, hh, hsum, hbnd, hpw⟩

/-- Witness for C9's theorem: with a 4-byte page size and a 3-byte
maximum transfer, a page of one overflow (8 payload bytes) is split into
chunks summing to 8, and the cache `[(2, 0), (1, 1)]` is written in the
order of ids 1, 2. -/
theorem write_plan_spec_witness :
    ((pageChunks 4 3 5 1).map Prod.snd).sum = (1 + 1) * 4 ∧
    List.Pairwise (· < ·) ((sortPages [(2, 0), (1, 1)]).map Prod.fst) :=
  ⟨(write_plan_spec 4 3 5 1 [(2, 0), (1, 1)] (by decide) (by decide)
      (by decide)).2.2.1,
    (write_plan_spec 4 3 5 1 [(2, 0), (1, 1)] (by decide) (by decide)
      (by decide)).1.2.2⟩

/-- The prefix kept by `sort.Search` is the longest prefix failing the
predicate, and the remainder is the corresponding suffix. -/
theorem take_drop_findIdx (p : Nat → Bool) (l : List Nat) :
    l.take (l.findIdx p) = l.takeWhile (fun v => !(p v)) ∧
    l.drop (l.findIdx p) = l.dropWhile (fun v => !(p v)) := by
  induction l with
  | nil => exact ⟨rfl, rfl⟩
  | cons a l ih =>
    cases hpa : p a <;>
      simp [List.findIdx_cons, hpa, List.takeWhile_cons, List.dropWhile_cons,
        ih.1, ih.2]

/-- The first element surviving `dropWhile` fails the predicate. -/
theorem dropWhile_head_false (q : Nat → Bool) :
    ∀ (l : List Nat) d1 dt, l.dropWhile q = d1 :: dt → q d1 = false := by
  intro l
  induction l with
  | nil => intro d1 dt h; simp at h
  | cons a l ih =>
    intro d1 dt h
    rw [List.dropWhile_cons] at h
    split at h
    · exact ih _ _ h
    · next hqa =>
        cases h
        simpa using hqa

/-- Invariant of the merge loop of `mergepgids`: with both sequences
strictly ascending, disjoint, non-empty, the lead's head below the
follow's head, and enough fuel, the loop emits a permutation of the
concatenation that is itself strictly ascending. -/
theorem mergeLoop_spec :
    ∀ fuel (l1 : Nat) lt f1 ft,
      (l1 :: lt).length + (f1 :: ft).length ≤ fuel →
      List.Pairwise (· < ·) (l1 :: lt) →
      List.Pairwise (· < ·) (f1 :: ft) →
      (∀ x ∈ l1 :: lt, x ∉ f1 :: ft) →
      l1 < f1 →
      (pgidMergeLoop fuel (l1 :: lt) (f1 :: ft)).Perm
          ((l1 :: lt) ++ (f1 :: ft)) ∧
        List.Pairwise (· < ·) (pgidMergeLoop fuel (l1 :: lt) (f1 :: ft)) := by
  intro fuel
  induction fuel with
  | zero =>
    intro l1 lt f1 ft hlen _ _ _ _
    simp at hlen
  | succ fuel ih =>
    intro l1 lt f1 ft hlen hsl hsf hdisj hlf
    have hunfold : pgidMergeLoop (fuel + 1) (l1 :: lt) (f1 :: ft) =
        (if (l1 :: lt).length ≤ (l1 :: lt).findIdx (fun v => decide (f1 < v))
         then (l1 :: lt) ++ (f1 :: ft)
         else (l1 :: lt).take ((l1 :: lt).findIdx fun v => decide (f1 < v)) ++
           pgidMergeLoop fuel (f1 :: ft)
             ((l1 :: lt).drop ((l1 :: lt).findIdx fun v => decide (f1 < v)))) :=
      rfl
    have htk := take_drop_findIdx (fun v => decide (f1 < v)) (l1 :: lt)
    have hfollow_lb : ∀ y ∈ f1 :: ft, f1 ≤ y := by
      intro y hy
      rcases List.mem_cons.mp hy with rfl | hy
      · exact Nat.le_refl _
      · exact Nat.le_of_lt ((List.pairwise_cons.mp hsf).1 y hy)
    by_cases hn :
        (l1 :: lt).length ≤ (l1 :: lt).findIdx fun v => decide (f1 < v)
    · rw [hunfold, if_pos hn]
      have hdropnil :
          (l1 :: lt).drop ((l1 :: lt).findIdx fun v => decide (f1 < v)) = [] :=
        List.drop_eq_nil_of_le hn
      have hall : ∀ x ∈ l1 :: lt, x < f1 := by
        have hall' := List.dropWhile_eq_nil_iff.mp (htk.2 ▸ hdropnil)
        intro x hx
        have hx' := hall' x hx
        simp only [Bool.not_eq_true', decide_eq_false_iff_not, Nat.not_lt] at hx'
        have hxne : x ≠ f1 := fun he => hdisj x hx (he ▸ List.mem_cons_self f1 ft)
        omega
      refine ⟨List.Perm.refl _, List.pairwise_append.mpr ⟨hsl, hsf, ?_⟩⟩
      intro x hx y hy
      exact Nat.lt_of_lt_of_le (hall x hx) (hfollow_lb y hy)
    · rw [hunfold, if_neg hn]
      have hlen_dr :
          ((l1 :: lt).drop ((l1 :: lt).findIdx fun v => decide (f1 < v))).length =
            (l1 :: lt).length - ((l1 :: lt).findIdx fun v => decide (f1 < v)) :=
        List.length_drop _ _
      have hn1 : 1 ≤ (l1 :: lt).findIdx fun v => decide (f1 < v) := by
        rw [List.findIdx_cons]
        have : decide (f1 < l1) = false := by
          simp only [decide_eq_false_iff_not]
          omega
        simp [this]
      obtain ⟨d1, dt, hdr⟩ :
          ∃ d1 dt,
            (l1 :: lt).drop ((l1 :: lt).findIdx fun v => decide (f1 < v)) =
              d1 :: dt := by
        rcases hcase :
            (l1 :: lt).drop ((l1 :: lt).findIdx fun v => decide (f1 < v)) with
          _ | ⟨d1, dt⟩
        · rw [hcase] at hlen_dr
          simp only [List.length_nil] at hlen_dr
          omega
        · exact ⟨d1, dt, rfl⟩
      have hd1 : f1 < d1 := by
        have hdw : (l1 :: lt).dropWhile (fun v => !(decide (f1 < v))) = d1 :: dt := by
          rw [← htk.2]
          exact hdr
        have := dropWhile_head_false _ _ _ _ hdw
        simpa using this
      have hsd : List.Pairwise (· < ·) (d1 :: dt) := by
        rw [← hdr]
        exact List.Pairwise.sublist (List.drop_sublist _ _) hsl
      have hdisj' : ∀ x ∈ f1 :: ft, x ∉ d1 :: dt := by
        intro x hx hxd
        have hxl : x ∈ l1 :: lt := List.drop_subset _ _ (hdr ▸ hxd)
        exact hdisj x hxl hx
      obtain ⟨hpermRec, hsortRec⟩ :=
        ih f1 ft d1 dt
          (by
            have h1 : (d1 :: dt).length =
                (l1 :: lt).length -
                  ((l1 :: lt).findIdx fun v => decide (f1 < v)) := by
              rw [← hdr]
              exact hlen_dr
            have h2 := hn
            simp only [List.length_cons] at h1 h2 hlen ⊢
            omega)
          hsf hsd hdisj' hd1
      rw [hdr]
      constructor
      · calc
          (l1 :: lt).take ((l1 :: lt).findIdx fun v => decide (f1 < v)) ++
              pgidMergeLoop fuel (f1 :: ft) (d1 :: dt) |>.Perm
            ((l1 :: lt).take ((l1 :: lt).findIdx fun v => decide (f1 < v)) ++
              ((f1 :: ft) ++ (d1 :: dt))) := hpermRec.append_left _
          _ |>.Perm ((l1 :: lt).take
                ((l1 :: lt).findIdx fun v => decide (f1 < v)) ++
              ((d1 :: dt) ++ (f1 :: ft))) := List.perm_append_comm.append_left _
          _ = ((l1 :: lt).take ((l1 :: lt).findIdx fun v => decide (f1 < v)) ++
                (d1 :: dt)) ++ (f1 :: ft) := (List.append_assoc _ _ _).symm
          _ = (l1 :: lt) ++ (f1 :: ft) := by
                rw [← hdr, List.take_append_drop]
      · have hLsplit : List.Pairwise (· < ·)
            ((l1 :: lt).take ((l1 :: lt).findIdx fun v => decide (f1 < v)) ++
              (l1 :: lt).drop ((l1 :: lt).findIdx fun v => decide (f1 < v))) := by
          rw [List.take_append_drop]
          exact hsl
        have hcrossL := (List.pairwise_append.mp hLsplit).2.2
        refine List.pairwise_append.mpr
          ⟨List.Pairwise.sublist (List.take_sublist _ _) hsl, hsortRec, ?_⟩
        intro x hx y hy
        have hxlt : x < f1 := by
          have hxw : x ∈ (l1 :: lt).takeWhile fun v => !(decide (f1 < v)) :=
            htk.1 ▸ hx
          have := List.mem_takeWhile_imp hxw
          simp only [Bool.not_eq_true', decide_eq_false_iff_not, Nat.not_lt] at this
          have hxl : x ∈ l1 :: lt := List.take_subset _ _ hx
          have hxne : x ≠ f1 := fun he =>
            hdisj x hxl (he ▸ List.mem_cons_self f1 ft)
          omega
        have hy' : y ∈ (f1 :: ft) ++ (d1 :: dt) := hpermRec.mem_iff.mp hy
        rcases List.mem_append.mp hy' with hy' | hy'
        · exact Nat.lt_of_lt_of_le hxlt (hfollow_lb y hy')
        · exact hcrossL x hx y (hdr ▸ hy')

/-- C4: `merge(a, b)` on two disjoint, strictly ascending page-id
sequences returns a strictly ascending sequence whose members are
exactly the union of `a` and `b` and whose length is
`len(a) + len(b)`; and for every sequence, merging with an empty
sequence returns the non-empty input as-is. -/
theorem merge_spec (a b : List Nat) (ha : List.Pairwise (· < ·) a)
    (hb : List.Pairwise (· < ·) b) (hd : ∀ x ∈ a, x ∉ b) :
    List.Pairwise (· < ·) (pgidsMerge a b) ∧
    (∀ x, x ∈ pgidsMerge a b ↔ x ∈ a ∨ x ∈ b) ∧
    (pgidsMerge a b).length = a.length + b.length ∧
    (∀ c : List Nat, pgidsMerge c [] = c ∧ pgidsMerge [] c = c) := by
  have hdeg : ∀ c : List Nat, pgidsMerge c [] = c ∧ pgidsMerge [] c = c := by
    intro c
    cases c <;> simp [pgidsMerge]
  match a, b with
  | [], b =>
    refine ⟨by simpa [(hdeg b).2] using hb, ?_, by simp [(hdeg b).2], hdeg⟩
    intro x
    simp [(hdeg b).2]
  | a, [] =>
    refine ⟨by simpa [(hdeg a).1] using ha, ?_, by simp [(hdeg a).1], hdeg⟩
    intro x
    simp [(hdeg a).1]
  | a1 :: ta, b1 :: tb =>
    have hne : a1 ≠ b1 := fun he =>
      hd a1 (List.mem_cons_self a1 ta) (he ▸ List.mem_cons_self b1 tb)
    have hM : pgidsMerge (a1 :: ta) (b1 :: tb) = mergepgids (a1 :: ta) (b1 :: tb) := by
      simp [pgidsMerge]
    obtain ⟨hperm, hsort⟩ :
        (mergepgids (a1 :: ta) (b1 :: tb)).Perm ((a1 :: ta) ++ (b1 :: tb)) ∧
          List.Pairwise (· < ·) (mergepgids (a1 :: ta) (b1 :: tb)) := by
      by_cases hba : b1 < a1
      · have hd' : ∀ x ∈ b1 :: tb, x ∉ a1 :: ta := fun x hx hxa => hd x hxa hx
        obtain ⟨hp, hs⟩ :=
          mergeLoop_spec ((a1 :: ta).length + (b1 :: tb).length) b1 tb a1 ta
            (by simp; omega) hb ha hd' hba
        have hm : mergepgids (a1 :: ta) (b1 :: tb) =
            pgidMergeLoop ((a1 :: ta).length + (b1 :: tb).length) (b1 :: tb)
              (a1 :: ta) := by
          simp [mergepgids, hba]
        rw [hm]
        exact ⟨hp.trans List.perm_append_comm, hs⟩
      · have hab : a1 < b1 := by omega
        obtain ⟨hp, hs⟩ :=
          mergeLoop_spec ((a1 :: ta).length + (b1 :: tb).length) a1 ta b1 tb
            (by simp) ha hb hd hab
        have hm : mergepgids (a1 :: ta) (b1 :: tb) =
            pgidMergeLoop ((a1 :: ta).length + (b1 :: tb).length) (a1 :: ta)
              (b1 :: tb) := by
          simp [mergepgids, hba]
        rw [hm]
        exact ⟨hp, hs⟩
    rw [hM]
    refine ⟨hsort, ?_, ?_, hdeg⟩
    · intro x
      rw [hperm.mem_iff]
      simp only [List.mem_append, List.mem_cons]
    · rw [hperm.length_eq]
      simp only [List.length_append, List.length_cons]

/-- Witness for C4's theorem on `a = [1, 3, 8]`, `b = [2, 5]`. -/
theorem merge_spec_witness :
    List.Pairwise (· < ·) (pgidsMerge [1, 3, 8] [2, 5]) ∧
    (∀ x, x ∈ pgidsMerge [1, 3, 8] [2, 5] ↔ x ∈ [1, 3, 8] ∨ x ∈ [2, 5]) ∧
    (pgidsMerge [1, 3, 8] [2, 5]).length = 5 ∧
    (∀ c : List Nat, pgidsMerge c [] = c ∧ pgidsMerge [] c = c) :=
  merge_spec [1, 3, 8] [2, 5] (by decide) (by decide) (by decide)

/-- Every trace out of the meta stage that reaches the commit handlers
ends with the close step immediately followed by the handlers. -/
theorem txCommitMeta_callbacks (t : List CommitStep) (env : CommitEnv)
    (ht : CommitStep.runCallbacks ∉ t) :
    CommitStep.runCallbacks ∈ (txCommitMeta t env).1 →
      ∃ u, (txCommitMeta t env).1 = u ++ [CommitStep.closeTx, CommitStep.runCallbacks] := by
  cases h : env.metaErr with
  | some e =>
    intro hmem
    simp only [txCommitMeta, h, List.mem_append, List.mem_cons,
      List.mem_singleton] at hmem
    rcases hmem with hmem | hmem | hmem
    · exact absurd hmem ht
    · exact absurd hmem (by simp)
    · simp at hmem
  | none =>
    intro _
    exact ⟨t ++ [CommitStep.writeMeta], by simp [txCommitMeta, h]⟩

/-- Every trace out of the write stage that reaches the commit handlers
ends with the close step immediately followed by the handlers. -/
theorem txCommitTail_callbacks (t : List CommitStep) (env : CommitEnv)
    (ht : CommitStep.runCallbacks ∉ t) :
    CommitStep.runCallbacks ∈ (txCommitTail t env).1 →
      ∃ u, (txCommitTail t env).1 = u ++ [CommitStep.closeTx, CommitStep.runCallbacks] := by
  cases h : env.writeErr with
  | some e =>
    intro hmem
    simp only [txCommitTail, h, List.mem_append, List.mem_cons,
      List.mem_singleton] at hmem
    rcases hmem with hmem | hmem | hmem
    · exact absurd hmem ht
    · exact absurd hmem (by simp)
    · simp at hmem
  | none =>
    by_cases hs : env.strictMode
    · by_cases hc : env.checkErrs.isEmpty
      · have := txCommitMeta_callbacks
          (t ++ [CommitStep.writePages, CommitStep.strictCheck]) env
          (by simp [ht])
        simpa [txCommitTail, h, hs, hc] using this
      · intro hmem
        simp only [txCommitTail, h, if_pos hs, if_neg hc, List.mem_append,
          List.mem_cons, List.mem_singleton] at hmem
        rcases hmem with hmem | hmem | hmem
        · exact absurd hmem ht
        · exact absurd hmem (by simp)
        · simp at hmem
    · have := txCommitMeta_callbacks (t ++ [CommitStep.writePages]) env
        (by simp [ht])
      simpa [txCommitTail, h, hs] using this

/-- Every trace out of the grow stage that reaches the commit handlers
ends with the close step immediately followed by the handlers. -/
theorem txCommitGrow_callbacks (t : List CommitStep) (env : CommitEnv)
    (ht : CommitStep.runCallbacks ∉ t) :
    CommitStep.runCallbacks ∈ (txCommitGrow t env).1 →
      ∃ u, (txCommitGrow t env).1 = u ++ [CommitStep.closeTx, CommitStep.runCallbacks] := by
  by_cases hg : env.pgidGrew
  · cases h : env.growErr with
    | some e =>
      intro hmem
      simp only [txCommitGrow, hg, h, if_pos, List.mem_append, List.mem_cons,
        List.mem_singleton] at hmem
      rcases hmem with hmem | hmem | hmem
      · exact absurd hmem ht
      · exact absurd hmem (by simp)
      · simp at hmem
    | none =>
      have := txCommitTail_callbacks (t ++ [CommitStep.grow]) env (by simp [ht])
      simpa [txCommitGrow, hg, h] using this
  · have := txCommitTail_callbacks t env ht
    simpa [txCommitGrow, hg] using this

/-- C6: a successful `Commit()` performs, in order: rebalance, spill,
root replacement, freelist persist, a grow exactly when the high-water
mark moved, the dirty-page writes, the strict-mode check exactly when
strict mode is on, the meta write, the close that releases the writer
lock, and only then the commit callbacks; a failure in spill, grow,
dirty-page write or meta write rolls back and returns that error; and on
every input whatsoever, the callbacks step appears in a trace only
immediately after the close step. -/
theorem commit_sequence (env : CommitEnv) :
    (env.spillErr = none →
      ((env.freelistSize : Int) < (env.regionSize : Int) - (env.pageSize : Int)) →
      env.freelistWriteErr = none →
      (env.pgidGrew = true → env.growErr = none) →
      env.writeErr = none →
      (env.strictMode = true → env.checkErrs = []) →
      env.metaErr = none →
      txCommit false true true env =
        ([CommitStep.rebalance, CommitStep.spill, CommitStep.setRoot,
            CommitStep.persistFreelist] ++
          (if env.pgidGrew then [CommitStep.grow] else []) ++
          [CommitStep.writePages] ++
          (if env.strictMode then [CommitStep.strictCheck] else []) ++
          [CommitStep.writeMeta, CommitStep.closeTx, CommitStep.runCallbacks],
          Outcome.ok)) ∧
    (∀ e, env.spillErr = some e →
      txCommit false true true env =
        ([CommitStep.rebalance, CommitStep.spill, CommitStep.rollback],
          Outcome.err (GoErr.ext e))) ∧
    (∀ e, env.spillErr = none →
      ((env.freelistSize : Int) < (env.regionSize : Int) - (env.pageSize : Int)) →
      env.freelistWriteErr = none →
      env.pgidGrew = true → env.growErr = some e →
      txCommit false true true env =
        ([CommitStep.rebalance, CommitStep.spill, CommitStep.setRoot,
            CommitStep.persistFreelist, CommitStep.grow, CommitStep.rollback],
          Outcome.err (GoErr.ext e))) ∧
    (∀ e, env.spillErr = none →
      ((env.freelistSize : Int) < (env.regionSize : Int) - (env.pageSize : Int)) →
      env.freelistWriteErr = none →
      (env.pgidGrew = true → env.growErr = none) →
      env.writeErr = some e →
      txCommit false true true env =
        ([CommitStep.rebalance, CommitStep.spill, CommitStep.setRoot,
            CommitStep.persistFreelist] ++
          (if env.pgidGrew then [CommitStep.grow] else []) ++
          [CommitStep.writePages, CommitStep.rollback],
          Outcome.err (GoErr.ext e))) ∧
    (∀ e, env.spillErr = none →
      ((env.freelistSize : Int) < (env.regionSize : Int) - (env.pageSize : Int)) →
      env.freelistWriteErr = none →
      (env.pgidGrew = true → env.growErr = none) →
      env.writeErr = none →
      (env.strictMode = true → env.checkErrs = []) →
      env.metaErr = some e →
      txCommit false true true env =
        ([CommitStep.rebalance, CommitStep.spill, CommitStep.setRoot,
            CommitStep.persistFreelist] ++
          (if env.pgidGrew then [CommitStep.grow] else []) ++
          [CommitStep.writePages] ++
          (if env.strictMode then [CommitStep.strictCheck] else []) ++
          [CommitStep.writeMeta, CommitStep.rollback],
          Outcome.err (GoErr.ext e))) ∧
    (∀ m d w : Bool, CommitStep.runCallbacks ∈ (txCommit m d w env).1 →
      ∃ u, (txCommit m d w env).1 =
        u ++ [CommitStep.closeTx, CommitStep.runCallbacks]) := by
  have hok : ∀ hassert : (env.freelistSize : Int) <
      (env.regionSize : Int) - (env.pageSize : Int),
      env.freelistWriteErr = none →
      commitFreelistResult env.freelistSize env.pageSize env.regionSize
          env.flid env.freelistWriteErr =
        some (Except.ok
          { id := 2 + env.flid % 2 * env.regionSize / env.pageSize
            overflow := freelistPageCount env.freelistSize env.pageSize - 1 }) := by
    intro hassert hflw
    rw [hflw]
    simp [commitFreelistResult, hassert]
  refine ⟨?_, ?_, ?_, ?_, ?_, ?_⟩
  · intro hsp hassert hflw hgrow hw hstrict hm
    rw [show txCommit false true true env =
        match env.spillErr with
        | some e =>
            ([CommitStep.rebalance, CommitStep.spill, CommitStep.rollback],
              Outcome.err (GoErr.ext e))
        | none =>
          match commitFreelistResult env.freelistSize env.pageSize
              env.regionSize env.flid env.freelistWriteErr with
          | none =>
              ([CommitStep.rebalance, CommitStep.spill, CommitStep.setRoot,
                  CommitStep.persistFreelist],
                Outcome.fatal "fatal: freelist too large")
          | some (Except.error e) =>
              ([CommitStep.rebalance, CommitStep.spill, CommitStep.setRoot,
                  CommitStep.persistFreelist, CommitStep.rollback],
                Outcome.err e)
          | some (Except.ok _) =>
              txCommitGrow
                [CommitStep.rebalance, CommitStep.spill, CommitStep.setRoot,
                  CommitStep.persistFreelist] env
      from rfl]
    rw [hsp, hok hassert hflw]
    by_cases hg : env.pgidGrew
    · have hge := hgrow hg
      by_cases hs : env.strictMode
      · have hce := hstrict hs
        simp [txCommitGrow, txCommitTail, txCommitMeta, hg, hge, hw, hs, hce, hm]
      · simp [txCommitGrow, txCommitTail, txCommitMeta, hg, hge, hw, hs, hm]
    · by_cases hs : env.strictMode
      · have hce := hstrict hs
        simp [txCommitGrow, txCommitTail, txCommitMeta, hg, hw, hs, hce, hm]
      · simp [txCommitGrow, txCommitTail, txCommitMeta, hg, hw, hs, hm]
  · intro e hsp
    simp [txCommit, hsp]
  · intro e hsp hassert hflw hg hge
    simp only [txCommit, Bool.not_true, Bool.false_eq_true, if_false, hsp,
      hok hassert hflw]
    simp [txCommitGrow, hg, hge]
  · intro e hsp hassert hflw hgrow hw
    simp only [txCommit, Bool.not_true, Bool.false_eq_true, if_false, hsp,
      hok hassert hflw]
    by_cases hg : env.pgidGrew
    · have hge := hgrow hg
      simp [txCommitGrow, txCommitTail, hg, hge, hw]
    · simp [txCommitGrow, txCommitTail, hg, hw]
  · intro e hsp hassert hflw hgrow hw hstrict hm
    simp only [txCommit, Bool.not_true, Bool.false_eq_true, if_false, hsp,
      hok hassert hflw]
    by_cases hg : env.pgidGrew
    · have hge := hgrow hg
      by_cases hs : env.strictMode
      · have hce := hstrict hs
        simp [txCommitGrow, txCommitTail, txCommitMeta, hg, hge, hw, hs, hce, hm]
      · simp [txCommitGrow, txCommitTail, txCommitMeta, hg, hge, hw, hs, hm]
    · by_cases hs : env.strictMode
      · have hce := hstrict hs
        simp [txCommitGrow, txCommitTail, txCommitMeta, hg, hw, hs, hce, hm]
      · simp [txCommitGrow, txCommitTail, txCommitMeta, hg, hw, hs, hm]
  · intro m d w
    cases m
    · cases d
      · simp [txCommit]
      · cases w
        · simp [txCommit]
        · cases hsp : env.spillErr with
          | some e => simp [txCommit, hsp]
          | none =>
            rcases hcf : commitFreelistResult env.freelistSize env.pageSize
                env.regionSize env.flid env.freelistWriteErr with _ | he | hp
            · simp [txCommit, hsp, hcf]
            · simp [txCommit, hsp, hcf]
            · have := txCommitGrow_callbacks
                [CommitStep.rebalance, CommitStep.spill, CommitStep.setRoot,
                  CommitStep.persistFreelist] env (by simp)
              simpa [txCommit, hsp, hcf] using this
    · simp [txCommit]

/-- Witness for C6's theorem: on an environment where every collaborator
succeeds, the high-water mark moved and strict mode is off, the trace is
exactly the ordered success sequence. -/
theorem commit_sequence_witness :
    txCommit false true true
      { spillErr := none, freelistSize := 10, pageSize := 4, regionSize := 100,
        flid := 1, freelistWriteErr := none, pgidGrew := true, growErr := none,
        writeErr := none, strictMode := false, checkErrs := [], metaErr := none } =
      ([CommitStep.rebalance, CommitStep.spill, CommitStep.setRoot,
          CommitStep.persistFreelist] ++
        [CommitStep.grow] ++ [CommitStep.writePages] ++ [] ++
        [CommitStep.writeMeta, CommitStep.closeTx, CommitStep.runCallbacks],
        Outcome.ok) := by
  have h := (commit_sequence
    { spillErr := none, freelistSize := 10, pageSize := 4, regionSize := 100,
      flid := 1, freelistWriteErr := none, pgidGrew := true, growErr := none,
      writeErr := none, strictMode := false, checkErrs := [],
      metaErr := none }).1
    rfl (by decide) rfl (fun _ => rfl) rfl (fun h => by cases h) rfl
  exact h.trans (by decide)

end BBolt
